import Mathlib

/-!
Verification development for the dungeon game in `my_sprites.py` / `my_game.py`.

The Python code is shallowly embedded:
* exact rational arithmetic (`ℚ`) replaces Python floats for timers, hit points
  and speeds (the code only ever adds and subtracts small decimal constants);
* real numbers (`ℝ`) model the geometric computations (`math.sin`, `math.cos`,
  `math.atan2`, Euclidean distances via `math.sqrt`);
* `arcade` library primitives that the game treats as black boxes
  (`has_line_of_sight`, `astar_calculate_path`, `collides_with_point`,
  `random.random`, `random.randrange`) are parameters of the embedded
  functions;
* `sprite.kill()` (removal from the world) is modelled by a `killed` flag;
* Python `None` returns of `Weapon.attack` are `Option.none`.
-/

set_option maxHeartbeats 1600000

namespace Dungeon

open Real

/-- Python `math.atan2 y x`, the angle of the point `(x, y)` measured from the
positive x axis, with the piecewise definition used by the C library. -/
noncomputable def atan2 (y x : ℝ) : ℝ :=
  if 0 < x then Real.arctan (y / x)
  else if x < 0 then
    (if 0 ≤ y then Real.arctan (y / x) + π else Real.arctan (y / x) - π)
  else
    (if 0 < y then π / 2 else if y < 0 then -(π / 2) else 0)

/-- Euclidean distance, `arcade.get_distance(x1, y1, x2, y2)`. -/
noncomputable def dist2 (x1 y1 x2 y2 : ℝ) : ℝ :=
  Real.sqrt ((x1 - x2) ^ 2 + (y1 - y2) ^ 2)

theorem dist2_nonneg (x1 y1 x2 y2 : ℝ) : 0 ≤ dist2 x1 y1 x2 y2 :=
  Real.sqrt_nonneg _

theorem dist2_symm (x1 y1 x2 y2 : ℝ) : dist2 x1 y1 x2 y2 = dist2 x2 y2 x1 y1 := by
  unfold dist2
  ring_nf

theorem dist2_complex (x1 y1 x2 y2 : ℝ) :
    dist2 x1 y1 x2 y2 = Complex.abs ⟨x1 - x2, y1 - y2⟩ := by
  rw [Complex.abs_apply, Complex.normSq_mk]
  unfold dist2
  ring_nf

/-- Triangle inequality for the embedded Euclidean distance. -/
theorem dist2_triangle (x1 y1 x2 y2 x3 y3 : ℝ) :
    dist2 x1 y1 x3 y3 ≤ dist2 x1 y1 x2 y2 + dist2 x2 y2 x3 y3 := by
  rw [dist2_complex, dist2_complex, dist2_complex]
  have h : (⟨x1 - x3, y1 - y3⟩ : ℂ) = ⟨x1 - x2, y1 - y2⟩ + ⟨x2 - x3, y2 - y3⟩ := by
    apply Complex.ext <;> simp
  rw [h]
  exact Complex.abs.add_le _ _

theorem sum_sq_pos (x y : ℝ) (h : ¬(x = 0 ∧ y = 0)) : 0 < x ^ 2 + y ^ 2 := by
  rcases lt_or_le 0 (x ^ 2 + y ^ 2) with hp | hp
  · exact hp
  · exact absurd ⟨by nlinarith [sq_nonneg x, sq_nonneg y],
      by nlinarith [sq_nonneg x, sq_nonneg y]⟩ h

theorem sqrt_one_add_div_sq (a y : ℝ) (ha : a ≠ 0) :
    Real.sqrt (1 + (y / a) ^ 2) = Real.sqrt (a ^ 2 + y ^ 2) / |a| := by
  rw [show (1 : ℝ) + (y / a) ^ 2 = (a ^ 2 + y ^ 2) / a ^ 2 by field_simp,
    Real.sqrt_div (by positivity) (a ^ 2), Real.sqrt_sq_eq_abs]

theorem sin_atan2 (y x : ℝ) (h : ¬(x = 0 ∧ y = 0)) :
    Real.sin (atan2 y x) = y / Real.sqrt (x ^ 2 + y ^ 2) := by
  have hr : 0 < Real.sqrt (x ^ 2 + y ^ 2) := Real.sqrt_pos.mpr (sum_sq_pos x y h)
  have hrne : Real.sqrt (x ^ 2 + y ^ 2) ≠ 0 := ne_of_gt hr
  rcases lt_trichotomy 0 x with hx | hx | hx
  · rw [atan2, if_pos hx, Real.sin_arctan,
      sqrt_one_add_div_sq x y (ne_of_gt hx), abs_of_pos hx]
    field_simp
  · subst hx
    rcases lt_trichotomy 0 y with hy | hy | hy
    · rw [atan2, if_neg (lt_irrefl 0), if_neg (lt_irrefl 0), if_pos hy,
        Real.sin_pi_div_two]
      rw [show (0 : ℝ) ^ 2 + y ^ 2 = y ^ 2 by ring, Real.sqrt_sq (le_of_lt hy)]
      field_simp
    · exact absurd ⟨rfl, hy.symm⟩ h
    · rw [atan2, if_neg (lt_irrefl 0), if_neg (lt_irrefl 0),
        if_neg (by linarith), if_pos hy, Real.sin_neg, Real.sin_pi_div_two]
      rw [show (0 : ℝ) ^ 2 + y ^ 2 = y ^ 2 by ring, Real.sqrt_sq_eq_abs,
        abs_of_neg hy, div_neg, div_self (ne_of_lt hy)]
  · have hx0 : x < 0 := hx
    have hxne : x ≠ 0 := ne_of_lt hx0
    rcases le_or_lt 0 y with hy | hy
    · rw [atan2, if_neg (by linarith), if_pos hx0, if_pos hy, Real.sin_add_pi,
        Real.sin_arctan, sqrt_one_add_div_sq x y hxne, abs_of_neg hx0,
        div_div_eq_mul_div, show y / x * -x = -y by field_simp,
        neg_div, neg_neg]
    · rw [atan2, if_neg (by linarith), if_pos hx0, if_neg (by linarith),
        Real.sin_sub_pi, Real.sin_arctan,
        sqrt_one_add_div_sq x y hxne, abs_of_neg hx0,
        div_div_eq_mul_div, show y / x * -x = -y by field_simp,
        neg_div, neg_neg]

theorem cos_atan2 (y x : ℝ) (h : ¬(x = 0 ∧ y = 0)) :
    Real.cos (atan2 y x) = x / Real.sqrt (x ^ 2 + y ^ 2) := by
  have hr : 0 < Real.sqrt (x ^ 2 + y ^ 2) := Real.sqrt_pos.mpr (sum_sq_pos x y h)
  have hrne : Real.sqrt (x ^ 2 + y ^ 2) ≠ 0 := ne_of_gt hr
  rcases lt_trichotomy 0 x with hx | hx | hx
  · rw [atan2, if_pos hx, Real.cos_arctan,
      sqrt_one_add_div_sq x y (ne_of_gt hx), abs_of_pos hx]
    field_simp
  · subst hx
    rcases lt_trichotomy 0 y with hy | hy | hy
    · rw [atan2, if_neg (lt_irrefl 0), if_neg (lt_irrefl 0), if_pos hy,
        Real.cos_pi_div_two]
      exact (zero_div _).symm
    · exact absurd ⟨rfl, hy.symm⟩ h
    · rw [atan2, if_neg (lt_irrefl 0), if_neg (lt_irrefl 0),
        if_neg (by linarith), if_pos hy, Real.cos_neg, Real.cos_pi_div_two]
      exact (zero_div _).symm
  · have hx0 : x < 0 := hx
    have hxne : x ≠ 0 := ne_of_lt hx0
    rcases le_or_lt 0 y with hy | hy
    · rw [atan2, if_neg (by linarith), if_pos hx0, if_pos hy, Real.cos_add_pi,
        Real.cos_arctan, sqrt_one_add_div_sq x y hxne, abs_of_neg hx0,
        one_div_div, neg_div, neg_neg]
    · rw [atan2, if_neg (by linarith), if_pos hx0, if_neg (by linarith),
        Real.cos_sub_pi, Real.cos_arctan,
        sqrt_one_add_div_sq x y hxne, abs_of_neg hx0,
        one_div_div, neg_div, neg_neg]

/-! ## Weapon (`my_sprites.py`, class `Weapon`)

`_attacks_left` is initialised from the per-type `max_usage` entry, which is
either an integer or Python `math.inf`.  `UsesLeft` embeds that value; the two
operations the code performs on it (`-= 1` and `<= 0`) follow IEEE semantics
on infinity.
-/

/-- The value of `Weapon._attacks_left`: an integer or `math.inf`. -/
inductive UsesLeft
  | inf : UsesLeft
  | fin : ℤ → UsesLeft
  deriving DecidableEq

/-- Decrement on `_attacks_left` (`math.inf - 1 == math.inf`). -/
def UsesLeft.dec : UsesLeft → UsesLeft
  | .inf => .inf
  | .fin n => .fin (n - 1)

/-- Comparison `x <= 0` on `_attacks_left` (`math.inf <= 0` is `False`). -/
def UsesLeft.le0 : UsesLeft → Bool
  | .inf => false
  | .fin n => decide (n ≤ 0)

/-- State of a `Weapon` sprite.  The static per-type data (`range`,
`strength`, `rate`, `hit_box`) is stored in the record, mirroring the lookups
into `Weapon.data[self.type]`.  `center` and `angle` are the inherited
`arcade.Sprite` position and rotation; `killed` records `self.kill()`. -/
structure Weapon where
  rate : ℚ
  strength : ℚ
  rng : ℚ
  hitBoxData : List (ℚ × ℚ)
  attacksLeft : UsesLeft
  timeToIdle : ℚ
  hitBox : List (ℚ × ℚ)
  killed : Bool
  center : ℝ × ℝ
  angle : ℚ

/-- Property `Weapon.is_idle`: the cooldown has run out. -/
def Weapon.isIdle (w : Weapon) : Prop := w.timeToIdle ≤ 0

instance (w : Weapon) : Decidable w.isIdle := by
  unfold Weapon.isIdle
  infer_instance

/-- Method `Weapon.attack(position, angle)`.  Returns the new state and the Python
return value (`True`, `False`, or the implicit `None` of the fall-through
when the weapon is still cooling down). -/
noncomputable def wAttack (w : Weapon) (position : ℝ × ℝ) (angle : ℝ) :
    Weapon × Option Bool :=
  let w0 : Weapon := { w with hitBox := w.hitBoxData }
  if w0.timeToIdle ≤ 0 then
    if w0.attacksLeft.le0 then
      ({ w0 with killed := true }, some false)
    else
      let w1 : Weapon := { w0 with attacksLeft := w0.attacksLeft.dec }
      let w2 : Weapon := { w1 with center := position, timeToIdle := w1.rate }
      let w3 : Weapon :=
        { w2 with
          center := (position.1 + Real.sin angle * (w2.rng : ℝ),
                     position.2 + Real.cos angle * (w2.rng : ℝ)) }
      ({ w3 with timeToIdle := w3.rate }, some true)
  else
    (w0, none)

/-- Method `Weapon.update()`: while not idle, spin the sprite and let `1/60` of a
second of cooldown elapse. -/
def wUpdate (w : Weapon) : Weapon :=
  if w.timeToIdle ≤ 0 then w
  else { w with angle := w.angle + 4, timeToIdle := w.timeToIdle - 1 / 60 }

theorem wUpdate_attacksLeft (w : Weapon) : (wUpdate w).attacksLeft = w.attacksLeft := by
  unfold wUpdate
  split <;> rfl

theorem wUpdate_killed (w : Weapon) : (wUpdate w).killed = w.killed := by
  unfold wUpdate
  split <;> rfl

theorem wUpdate_center (w : Weapon) : (wUpdate w).center = w.center := by
  unfold wUpdate
  split <;> rfl

theorem wUpdate_iterate_attacksLeft (n : ℕ) (w : Weapon) :
    (wUpdate^[n] w).attacksLeft = w.attacksLeft := by
  induction n generalizing w with
  | zero => rfl
  | succ k ih =>
    rw [Function.iterate_succ_apply, ih, wUpdate_attacksLeft]

theorem wUpdate_iterate_killed (n : ℕ) (w : Weapon) :
    (wUpdate^[n] w).killed = w.killed := by
  induction n generalizing w with
  | zero => rfl
  | succ k ih =>
    rw [Function.iterate_succ_apply, ih, wUpdate_killed]

/-- A successful attack: decrements the uses, arms the cooldown, and places
the weapon sprite at the attack point `position + range * unit(angle)`. -/
theorem wAttack_success (w : Weapon) (p : ℝ × ℝ) (a : ℝ)
    (hIdle : w.timeToIdle ≤ 0) (hUses : w.attacksLeft.le0 = false) :
    (wAttack w p a).2 = some true ∧
    (wAttack w p a).1.attacksLeft = w.attacksLeft.dec ∧
    (wAttack w p a).1.timeToIdle = w.rate ∧
    (wAttack w p a).1.killed = w.killed ∧
    (wAttack w p a).1.rate = w.rate ∧
    (wAttack w p a).1.center =
      (p.1 + Real.sin a * (w.rng : ℝ), p.2 + Real.cos a * (w.rng : ℝ)) := by
  unfold wAttack
  simp [hUses, if_pos hIdle]

/-- An attack attempted with no uses left: the weapon is killed and the call
returns `False`. -/
theorem wAttack_exhausted (w : Weapon) (p : ℝ × ℝ) (a : ℝ)
    (hIdle : w.timeToIdle ≤ 0) (hUses : w.attacksLeft.le0 = true) :
    (wAttack w p a).2 = some false ∧
    (wAttack w p a).1.attacksLeft = w.attacksLeft ∧
    (wAttack w p a).1.timeToIdle = w.timeToIdle ∧
    (wAttack w p a).1.killed = true := by
  unfold wAttack
  simp [hUses, if_pos hIdle]

/-- An attack attempted while cooling down: the call falls through (returns
`None`) and only the transient `hit_box` field changes. -/
theorem wAttack_cooling (w : Weapon) (p : ℝ × ℝ) (a : ℝ)
    (hBusy : ¬ w.timeToIdle ≤ 0) :
    (wAttack w p a).2 = none ∧
    (wAttack w p a).1 = { w with hitBox := w.hitBoxData } := by
  unfold wAttack
  simp [if_neg hBusy]

/-! ## Sequences of weapon operations

`WOp` is one event in the life of a weapon between frames: either one
`update()` tick (1/60 s of cooldown decay) or one `attack(position, angle)`
call.  `runW` replays a list of events and records the return value of every
attack call. -/

inductive WOp
  | upd : WOp
  | atk : (ℝ × ℝ) → ℝ → WOp

def WOp.isUpd : WOp → Bool
  | .upd => true
  | .atk _ _ => false

/-- Number of `update()` ticks in an event list. -/
def countUpd (L : List WOp) : ℕ := L.countP WOp.isUpd

noncomputable def runW : Weapon → List WOp → Weapon × List (Option Bool)
  | w, [] => (w, [])
  | w, WOp.upd :: rest => runW (wUpdate w) rest
  | w, WOp.atk p a :: rest =>
    ((runW (wAttack w p a).1 rest).1,
     (wAttack w p a).2 :: (runW (wAttack w p a).1 rest).2)

/-- While strictly inside the current cooldown window (fewer `update()` ticks
than sixty times the remaining cooldown), every replayed attack falls through
with `None` and the remaining-uses counter never changes. -/
theorem runW_cooldown (L : List WOp) : ∀ w : Weapon, 0 < w.timeToIdle →
    (countUpd L : ℚ) < 60 * w.timeToIdle →
    (∀ r ∈ (runW w L).2, r = none) ∧
    (runW w L).1.attacksLeft = w.attacksLeft := by
  induction L with
  | nil =>
    intro w _ _
    exact ⟨fun r hr => absurd hr (List.not_mem_nil r), rfl⟩
  | cons op rest ih =>
    intro w hpos hcount
    cases op with
    | upd =>
      have hcountRest : (countUpd rest : ℚ) < 60 * (w.timeToIdle - 1 / 60) := by
        have h1 : countUpd (WOp.upd :: rest) = countUpd rest + 1 := by
          unfold countUpd
          rw [List.countP_cons_of_pos]
          rfl
        rw [h1] at hcount
        push_cast at hcount
        linarith
      have hposRest : 0 < w.timeToIdle - 1 / 60 := by
        have h0 : (0 : ℚ) ≤ (countUpd rest : ℚ) := Nat.cast_nonneg _
        linarith
      have hupd : wUpdate w =
          { w with angle := w.angle + 4, timeToIdle := w.timeToIdle - 1 / 60 } := by
        unfold wUpdate
        rw [if_neg (by linarith)]
      have := ih (wUpdate w) (by rw [hupd]; exact hposRest)
        (by rw [hupd]; exact hcountRest)
      refine ⟨?_, ?_⟩
      · intro r hr
        exact this.1 r hr
      · rw [show runW w (WOp.upd :: rest) = runW (wUpdate w) rest from rfl,
          this.2, wUpdate_attacksLeft]
    | atk p a =>
      have hBusy : ¬ w.timeToIdle ≤ 0 := by linarith
      have hatk := wAttack_cooling w p a hBusy
      have hcountRest : (countUpd rest : ℚ) < 60 * w.timeToIdle := by
        have h1 : countUpd (WOp.atk p a :: rest) = countUpd rest := by
          unfold countUpd
          rw [List.countP_cons_of_neg]
          intro hfalse
          exact absurd hfalse (by simp [WOp.isUpd])
        rw [h1] at hcount
        exact hcount
      have hTimer : (wAttack w p a).1.timeToIdle = w.timeToIdle := by
        rw [hatk.2]
      have hLeft : (wAttack w p a).1.attacksLeft = w.attacksLeft := by
        rw [hatk.2]
      have := ih (wAttack w p a).1 (by rw [hTimer]; exact hpos)
        (by rw [hTimer]; exact hcountRest)
      refine ⟨?_, ?_⟩
      · intro r hr
        rcases List.mem_cons.mp hr with h | h
        · rw [h, hatk.1]
        · exact this.1 r h
      · rw [show (runW w (WOp.atk p a :: rest)).1
            = (runW (wAttack w p a).1 rest).1 from rfl, this.2, hLeft]

/-- C2: for a weapon that is idle and has uses remaining, an `attack()`
succeeds; as long as strictly less than `rate` seconds of cooldown have
elapsed through `update()` ticks, every further `attack()` in the window
returns failure (`None`) and leaves `_attacks_left` unchanged. -/
theorem C2_cooldown_window (w : Weapon) (p : ℝ × ℝ) (a : ℝ) (L : List WOp)
    (hIdle : w.timeToIdle ≤ 0) (hUses : w.attacksLeft.le0 = false)
    (hWin : (countUpd L : ℚ) < 60 * w.rate) :
    (wAttack w p a).2 = some true ∧
    (∀ r ∈ (runW (wAttack w p a).1 L).2, r = none) ∧
    (runW (wAttack w p a).1 L).1.attacksLeft = w.attacksLeft.dec := by
  have hs := wAttack_success w p a hIdle hUses
  have hratePos : 0 < w.rate := by
    have h0 : (0 : ℚ) ≤ (countUpd L : ℚ) := Nat.cast_nonneg _
    nlinarith
  have hrun := runW_cooldown L (wAttack w p a).1
    (by rw [hs.2.2.1]; exact hratePos)
    (by rw [hs.2.2.1]; exact hWin)
  exact ⟨hs.1, hrun.1, by rw [hrun.2, hs.2.1]⟩

/-- A short sword from `Weapon.data`, freshly idle, used for the C2 witness. -/
noncomputable def c2w : Weapon :=
  { rate := 4 / 5, strength := 7, rng := 15,
    hitBoxData := [(10, 10), (10, -10), (-10, -10), (-10, 10)],
    attacksLeft := .fin 10, timeToIdle := 0, hitBox := [], killed := false,
    center := (0, 0), angle := 0 }

/-- Two attacks 1/60 s after the first swing, all within the 0.8 s window. -/
noncomputable def c2ops : List WOp :=
  [WOp.upd, WOp.atk (0, 0) 0, WOp.atk (0, 0) 0]

theorem C2_cooldown_window_witness :
    (wAttack c2w (0, 0) 0).2 = some true ∧
    (∀ r ∈ (runW (wAttack c2w (0, 0) 0).1 c2ops).2, r = none) ∧
    (runW (wAttack c2w (0, 0) 0).1 c2ops).1.attacksLeft = c2w.attacksLeft.dec :=
  C2_cooldown_window c2w (0, 0) 0 c2ops (by norm_num [c2w])
    (by norm_num [c2w, UsesLeft.le0]) (by norm_num [c2w, c2ops, countUpd, List.countP, List.countP.go, WOp.isUpd])

/-! ## Idle-spaced attack runs -/

/-- One attack attempt: `gap` frames of `update()` and then one
`attack(pos, ang)` call. -/
structure AtkCall where
  gap : ℕ
  pos : ℝ × ℝ
  ang : ℝ

/-- Replay a list of attack attempts, recording every attack return value. -/
noncomputable def idleRun : Weapon → List AtkCall → Weapon × List (Option Bool)
  | w, [] => (w, [])
  | w, c :: rest =>
    ((idleRun (wAttack (wUpdate^[c.gap] w) c.pos c.ang).1 rest).1,
     (wAttack (wUpdate^[c.gap] w) c.pos c.ang).2 ::
       (idleRun (wAttack (wUpdate^[c.gap] w) c.pos c.ang).1 rest).2)

/-- Every attempt in the run happens while the weapon is idle (enough update
frames were waited between attacks). -/
def IdleSpaced : Weapon → List AtkCall → Prop
  | _, [] => True
  | w, c :: rest =>
    (wUpdate^[c.gap] w).timeToIdle ≤ 0 ∧
    IdleSpaced (wAttack (wUpdate^[c.gap] w) c.pos c.ang).1 rest

/-- Once the uses counter is exhausted, every idle-spaced attempt returns
`False` and leaves the weapon killed. -/
theorem idleRun_exhausted (calls : List AtkCall) : ∀ (n : ℤ) (w : Weapon),
    w.attacksLeft = .fin n → n ≤ 0 → w.killed = true → IdleSpaced w calls →
    (idleRun w calls).2 = List.replicate calls.length (some false) ∧
    (idleRun w calls).1.killed = true := by
  induction calls with
  | nil =>
    intro n w _ _ hk _
    exact ⟨rfl, hk⟩
  | cons c rest ih =>
    intro n w hfin hn hk hsp
    have hw1left : (wUpdate^[c.gap] w).attacksLeft = .fin n := by
      rw [wUpdate_iterate_attacksLeft, hfin]
    have hle0 : (wUpdate^[c.gap] w).attacksLeft.le0 = true := by
      rw [hw1left]
      unfold UsesLeft.le0
      exact decide_eq_true hn
    have hatk := wAttack_exhausted (wUpdate^[c.gap] w) c.pos c.ang hsp.1 hle0
    have hrest := ih n (wAttack (wUpdate^[c.gap] w) c.pos c.ang).1
      (by rw [hatk.2.1, hw1left]) hn hatk.2.2.2 hsp.2
    constructor
    · show (wAttack (wUpdate^[c.gap] w) c.pos c.ang).2 :: _ = _
      rw [hatk.1, hrest.1]
      rfl
    · exact hrest.2

/-- C3: a weapon with `N` uses left succeeds on exactly the first `N`
idle-spaced attempts; every later attempt (starting with the `(N+1)`-th)
returns `False` and signals destruction of the weapon (`kill()`). -/
theorem C3_uses_exhaustion (N : ℕ) (w : Weapon) (calls : List AtkCall)
    (hN : w.attacksLeft = .fin N) (hlen : N < calls.length)
    (hsp : IdleSpaced w calls) :
    (idleRun w calls).2 =
      List.replicate N (some true) ++
        List.replicate (calls.length - N) (some false) ∧
    (idleRun w calls).1.killed = true := by
  induction calls generalizing N w with
  | nil => exact absurd hlen (by simp)
  | cons c rest ih =>
    have hw1left : (wUpdate^[c.gap] w).attacksLeft = .fin N := by
      rw [wUpdate_iterate_attacksLeft, hN]
    cases N with
    | zero =>
      have hle0 : (wUpdate^[c.gap] w).attacksLeft.le0 = true := by
        rw [hw1left]
        unfold UsesLeft.le0
        exact decide_eq_true (by norm_num)
      have hatk := wAttack_exhausted (wUpdate^[c.gap] w) c.pos c.ang hsp.1 hle0
      have hrest := idleRun_exhausted rest 0
        (wAttack (wUpdate^[c.gap] w) c.pos c.ang).1
        (by rw [hatk.2.1, hw1left]; norm_num) le_rfl hatk.2.2.2 hsp.2
      constructor
      · show (wAttack (wUpdate^[c.gap] w) c.pos c.ang).2 :: _ = _
        rw [hatk.1, hrest.1]
        simp [List.replicate_succ]
      · exact hrest.2
    | succ k =>
      have hle0 : (wUpdate^[c.gap] w).attacksLeft.le0 = false := by
        rw [hw1left]
        unfold UsesLeft.le0
        exact decide_eq_false (by push_cast; omega)
      have hatk := wAttack_success (wUpdate^[c.gap] w) c.pos c.ang hsp.1 hle0
      have hleft : (wAttack (wUpdate^[c.gap] w) c.pos c.ang).1.attacksLeft
          = .fin k := by
        rw [hatk.2.1, hw1left]
        unfold UsesLeft.dec
        push_cast
        ring_nf
      have hrest := ih k (wAttack (wUpdate^[c.gap] w) c.pos c.ang).1 hleft
        (by simpa using Nat.lt_of_succ_lt_succ hlen) hsp.2
      constructor
      · show (wAttack (wUpdate^[c.gap] w) c.pos c.ang).2 :: _ = _
        rw [hatk.1, hrest.1]
        have hlen2 : rest.length - k = (c :: rest).length - (k + 1) := by
          simp
        rw [hlen2]
        simp [List.replicate_succ]
      · exact hrest.2

/-- A two-use instant weapon (rate 0) for the C3 witness. -/
noncomputable def c3w : Weapon :=
  { rate := 0, strength := 7, rng := 15, hitBoxData := [],
    attacksLeft := .fin 2, timeToIdle := 0, hitBox := [], killed := false,
    center := (0, 0), angle := 0 }

noncomputable def c3calls : List AtkCall :=
  [⟨0, (0, 0), 0⟩, ⟨0, (0, 0), 0⟩, ⟨0, (0, 0), 0⟩]

theorem C3_uses_exhaustion_witness :
    (idleRun c3w c3calls).2 =
      List.replicate 2 (some true) ++
        List.replicate (c3calls.length - 2) (some false) ∧
    (idleRun c3w c3calls).1.killed = true :=
  C3_uses_exhaustion 2 c3w c3calls rfl (by norm_num [c3calls])
    ⟨by norm_num [c3w, wAttack, UsesLeft.le0],
     by norm_num [c3w, wAttack, UsesLeft.le0, UsesLeft.dec],
     by norm_num [c3w, wAttack, UsesLeft.le0, UsesLeft.dec], trivial⟩

/-! ## Enemy (`my_sprites.py`, class `Enemy`) -/

/-- Python `int()` applied to a float: truncation toward zero. -/
noncomputable def pyInt (x : ℝ) : ℤ := if 0 ≤ x then ⌊x⌋ else ⌈x⌉

/-- Enumeration `EnemyState`. -/
inductive EState
  | roaming
  | searching
  | chasing
  deriving DecidableEq

/-- The library and random primitives an `Enemy.update()` call interacts
with: the `potential_targets_list` snapshot (positions), the
`arcade.has_line_of_sight` oracle (target position, own position),
`arcade.astar_calculate_path` (own position, integer target; an empty list
stands for the `None` result), the `random.random()` value used to re-arm
`calculate_path_timer`, and the stream of `random.randrange` samples drawn by
the roaming loop. -/
structure EnemyEnv where
  targets : List (ℝ × ℝ)
  los : (ℝ × ℝ) → (ℝ × ℝ) → Bool
  astar : (ℝ × ℝ) → (ℤ × ℤ) → List (ℝ × ℝ)
  randReset : ℚ
  roamSamples : List (ℤ × ℤ)

/-- Mutable state of an `Enemy` sprite. -/
structure EnemyS where
  center : ℝ × ℝ
  maxHp : ℚ
  hpRaw : ℚ
  speed : ℚ
  state : EState
  curTarget : Option (ℝ × ℝ)
  path : List (ℝ × ℝ)
  curPathPos : ℕ
  calcPathTimer : ℚ
  pauseTimer : ℚ
  roamingDist : ℚ
  equipped : Option Weapon
  changeX : ℝ
  changeY : ℝ
  killed : Bool

/-- The `Enemy.hp` property getter.  The source returns `self._max_hp`
(`my_sprites.py` line 249), not `self._hp`. -/
def enemyHpGet (st : EnemyS) : ℚ := st.maxHp

/-- The `Enemy.hp` property setter: clamps into `[0, max_hp]` and stores the
result in `_hp`. -/
def enemyHpSet (st : EnemyS) (newHp : ℚ) : EnemyS :=
  { st with hpRaw := max 0 (min newHp st.maxHp) }

/-- Method `Enemy.go_to_position(target_pos)`: plan a path and reset the cursor. -/
noncomputable def goToPosition (env : EnemyEnv) (st : EnemyS)
    (targetPos : ℝ × ℝ) : EnemyS :=
  { st with
    path := env.astar st.center (pyInt targetPos.1, pyInt targetPos.2),
    curPathPos := 0 }

/-- Method `Enemy.move_along_path()`.  Out-of-range cursor reads default to `(0,0)`;
the code maintains `cur_path_position < len(path)` whenever the path is
non-empty. -/
noncomputable def moveAlongPath (st : EnemyS) : EnemyS :=
  match st.path with
  | [] => st
  | _ :: _ =>
    let dest := st.path.getD st.curPathPos (0, 0)
    let angleToDest := atan2 (st.center.1 - dest.1) (st.center.2 - dest.2)
    let distToDest := dist2 dest.1 dest.2 st.center.1 st.center.2
    let thisMoveLength := min ((st.speed : ℚ) : ℝ) distToDest
    if distToDest ≤ ((st.speed : ℚ) : ℝ) then
      if st.curPathPos + 1 = st.path.length then
        { st with curPathPos := st.curPathPos + 1, path := [] }
      else
        { st with curPathPos := st.curPathPos + 1 }
    else
      { st with
        center := (st.center.1 + -Real.sin angleToDest * thisMoveLength,
                   st.center.2 + -Real.cos angleToDest * thisMoveLength) }

/-- One iteration of the state-control `for` loop over
`potential_targets_list`. -/
noncomputable def stateStep (env : EnemyEnv) (s : EnemyS) (t : ℝ × ℝ) : EnemyS :=
  if env.los t s.center then
    { s with curTarget := some t, state := .chasing }
  else
    match s.curTarget with
    | some ct =>
      { goToPosition env s ct with curTarget := none, state := .searching }
    | none => s

/-- The state-control loop of `Enemy.update()` (lines 348-355). -/
noncomputable def stateControl (env : EnemyEnv) (st : EnemyS) : EnemyS :=
  env.targets.foldl (stateStep env) st

/-- The CHASING branch of `Enemy.update()`.  `none` models the
`AttributeError` the Python code raises when `cur_target` is `None`. -/
noncomputable def chasingStep (st : EnemyS) : Option EnemyS :=
  match st.curTarget with
  | none => none
  | some tgt =>
    let st1 : EnemyS := { st with path := [] }
    let ang := atan2 (tgt.1 - st1.center.1) (tgt.2 - st1.center.2)
    let st2 : EnemyS :=
      { st1 with
        center := (st1.center.1 + Real.sin ang * ((st1.speed : ℚ) : ℝ),
                   st1.center.2 + Real.cos ang * ((st1.speed : ℚ) : ℝ)) }
    match st2.equipped with
    | none => some st2
    | some w =>
      let w1 := (wAttack w st2.center ang).1
      let w2 : Weapon :=
        { w1 with
          center := (w1.center.1 + Real.sin ang * ((st2.speed : ℚ) : ℝ),
                     w1.center.2 + Real.cos ang * ((st2.speed : ℚ) : ℝ)) }
      some { st2 with equipped := some w2 }

/-- The `while True` random-destination loop of the ROAMING branch, driven by
the sample stream; `none` models the loop running out of samples (the source
would keep drawing forever). -/
noncomputable def roamLoop (env : EnemyEnv) (st : EnemyS) :
    List (ℤ × ℤ) → Option EnemyS
  | [] => none
  | np :: rest =>
    if (st.roamingDist : ℝ) <
        dist2 st.center.1 st.center.2 ((np.1 : ℤ) : ℝ) ((np.2 : ℤ) : ℝ) then
      some (goToPosition env st (((np.1 : ℤ) : ℝ), ((np.2 : ℤ) : ℝ)))
    else
      roamLoop env st rest

/-- Tail of `Enemy.update()`: the death check (which reads the `hp` getter)
followed by the weapon update and the durability check. -/
noncomputable def deathAndWeapon (st : EnemyS) : EnemyS :=
  let st1 : EnemyS := if enemyHpGet st ≤ 0 then { st with killed := true } else st
  match st1.equipped with
  | none => st1
  | some w =>
    let w1 := wUpdate w
    if w1.attacksLeft.le0 then { st1 with equipped := none }
    else { st1 with equipped := some w1 }

/-- Method `Enemy.update()`. -/
noncomputable def enemyUpdate (env : EnemyEnv) (st : EnemyS) : Option EnemyS :=
  if 0 < st.pauseTimer then
    some { st with pauseTimer := st.pauseTimer - 1 / 60 }
  else
    let stA : EnemyS := { st with calcPathTimer := st.calcPathTimer - 1 / 60 }
    let stB : EnemyS :=
      if stA.calcPathTimer ≤ 0 then
        { stateControl env stA with calcPathTimer := env.randReset }
      else stA
    let branch : Option EnemyS :=
      match stB.state with
      | .chasing => chasingStep stB
      | .searching =>
        match stB.path with
        | [] => some { stB with state := .roaming }
        | _ :: _ => some (moveAlongPath stB)
      | .roaming =>
        match stB.path with
        | [] => roamLoop env { stB with changeX := 0, changeY := 0 } env.roamSamples
        | _ :: _ => some (moveAlongPath stB)
    branch.map deathAndWeapon

/-! ## HealthBar (`my_sprites.py`, class `HealthBar`) -/

/-- Python `int()` on an exact rational: truncation toward zero. -/
def pyIntQ (q : ℚ) : ℤ := if 0 ≤ q then ⌊q⌋ else ⌈q⌉

structure HealthBar where
  maxHealth : ℚ
  currentHealth : ℚ
  barWidth : ℚ
  fgWidth : ℤ

/-- The `HealthBar.health` property setter: stores the value only when it is
strictly between `0` and `max_health`, then recomputes the foreground bar
width. -/
def healthSet (hb : HealthBar) (newHealth : ℚ) : HealthBar :=
  let hb1 : HealthBar :=
    if 0 < newHealth ∧ newHealth < hb.maxHealth then
      { hb with currentHealth := newHealth }
    else hb
  { hb1 with
    fgWidth := pyIntQ (hb1.currentHealth / hb1.maxHealth * hb1.barWidth) }

theorem dist2_eq_abs (a b : ℝ) : dist2 a 0 b 0 = |a - b| := by
  unfold dist2
  rw [show (a - b) ^ 2 + ((0 : ℝ) - 0) ^ 2 = (a - b) ^ 2 by ring,
    Real.sqrt_sq_eq_abs]

/-! ## C1, C6, C10 -/

/-- Environment for the C1 run: no targets, no paths. -/
noncomputable def c1env : EnemyEnv :=
  { targets := [], los := fun _ _ => false, astar := fun _ _ => [],
    randReset := 0, roamSamples := [] }

/-- A live enemy whose current HP has already been clamped to `0`
(e.g. after `hp = -5`), with `max_hp = 10`. -/
noncomputable def c1st : EnemyS :=
  { center := (0, 0), maxHp := 10, hpRaw := 0, speed := 1,
    state := .searching, curTarget := none, path := [], curPathPos := 0,
    calcPathTimer := 1, pauseTimer := 0, roamingDist := 0, equipped := none,
    changeX := 0, changeY := 0, killed := false }

/-- C1: the death check of `Enemy.update()` compares the `hp` getter with 0,
but that getter returns `_max_hp`; an enemy whose stored current HP is `0`
(with `max_hp = 10`) is therefore not removed on its next update, contrary to
the claim. -/
theorem C1_death_check_reads_max_hp :
    (∀ st : EnemyS, enemyHpGet st = st.maxHp) ∧
    c1st.hpRaw = 0 ∧
    (enemyUpdate c1env c1st).map (fun s => (s.killed, s.hpRaw))
      = some (false, 0) := by
  refine ⟨fun _ => rfl, rfl, ?_⟩
  norm_num [enemyUpdate, c1env, c1st, deathAndWeapon, enemyHpGet]

/-- Environment for the C6 run: two visible targets, the nearer one first in
`potential_targets_list`. -/
noncomputable def c6env : EnemyEnv :=
  { targets := [(10, 0), (50, 0)], los := fun _ _ => true,
    astar := fun _ _ => [], randReset := 0, roamSamples := [] }

noncomputable def c6st : EnemyS :=
  { center := (0, 0), maxHp := 10, hpRaw := 10, speed := 1,
    state := .roaming, curTarget := none, path := [], curPathPos := 0,
    calcPathTimer := 0, pauseTimer := 0, roamingDist := 0, equipped := none,
    changeX := 0, changeY := 0, killed := false }

/-- C6: with two visible targets the state-control loop tracks the one
iterated last, here `(50,0)`, even though `(10,0)` is strictly nearer to the
enemy at the origin (the source carries a FIXME to chase the closest
player). -/
theorem C6_last_visible_target_wins :
    (stateControl c6env c6st).curTarget = some (50, 0) ∧
    (stateControl c6env c6st).state = .chasing ∧
    dist2 10 0 0 0 < dist2 50 0 0 0 := by
  refine ⟨rfl, rfl, ?_⟩
  rw [dist2_eq_abs, dist2_eq_abs]
  norm_num

/-- C10: the `HealthBar.health` setter stores the new value exactly when it
is strictly between `0` and `max_health`; in particular assigning `0` or
`max_health` leaves the stored health unchanged. -/
theorem C10_healthbar_setter (hb : HealthBar) (newHealth : ℚ) :
    (¬(0 < newHealth ∧ newHealth < hb.maxHealth) →
      (healthSet hb newHealth).currentHealth = hb.currentHealth) ∧
    ((0 < newHealth ∧ newHealth < hb.maxHealth) →
      (healthSet hb newHealth).currentHealth = newHealth) := by
  constructor
  · intro h
    unfold healthSet
    rw [if_neg h]
  · intro h
    unfold healthSet
    rw [if_pos h]

def c10hb : HealthBar :=
  { maxHealth := 10, currentHealth := 10, barWidth := 32, fgWidth := 32 }

theorem C10_healthbar_setter_witness :
    (healthSet c10hb 0).currentHealth = c10hb.currentHealth ∧
    (healthSet c10hb 10).currentHealth = c10hb.currentHealth ∧
    (healthSet c10hb 3).currentHealth = 3 :=
  ⟨(C10_healthbar_setter c10hb 0).1 (by norm_num [c10hb]),
   (C10_healthbar_setter c10hb 10).1 (by norm_num [c10hb]),
   (C10_healthbar_setter c10hb 3).2 (by norm_num [c10hb])⟩

/-! ## Combat resolver (`my_game.py`, `GameView.on_update` lines 330-342)

The resolver iterates the player list and, per player, the enemy list; for
each pair it applies the two hit checks of the source.  `collides_with_point`
is a library geometric query over the defender's fixed hit box and position
(neither is mutated by the resolver), embedded as the defender's `hit`
function.

Modelled from the spec: the `Weapon.attack_point` attribute used by
`on_update` does not exist in `src/my_sprites.py` (its `Weapon` places the
sprite itself at the attack position); per the spec it is "a transient world
position where its hitbox currently exists (null when idle)", cleared by the
resolver on a registered hit, so it is embedded as an `Option (ℝ × ℝ)`
field. -/

structure RWeapon where
  strength : ℚ
  attackPoint : Option (ℝ × ℝ)

structure RPlayer where
  hpRaw : ℚ
  maxHp : ℚ
  equippedWeapon : Option RWeapon
  hit : ℝ × ℝ → Bool

structure REnemy where
  hpRaw : ℚ
  maxHp : ℚ
  equippedWeapon : Option RWeapon
  hit : ℝ × ℝ → Bool

/-- Getter of `Player.hp` (`my_sprites.py` line 574). -/
def playerHpGet (p : RPlayer) : ℚ := p.hpRaw

/-- Setter of `Player.hp` (`my_sprites.py` line 582): clamp into `[0, max_hp]`. -/
def playerHpSet (p : RPlayer) (v : ℚ) : RPlayer :=
  { p with hpRaw := max 0 (min v p.maxHp) }

/-- Getter of `Enemy.hp` (`my_sprites.py` line 249): returns `_max_hp`. -/
def enemyHpGetR (e : REnemy) : ℚ := e.maxHp

/-- Setter of `Enemy.hp` (`my_sprites.py` line 253): clamp into `[0, max_hp]`. -/
def enemyHpSetR (e : REnemy) (v : ℚ) : REnemy :=
  { e with hpRaw := max 0 (min v e.maxHp) }

/-- First hit check of the pair: the enemy's weapon against the player
(`p.hp -= strength`, clear the enemy's attack point). -/
def enemyHitsPlayer (p : RPlayer) (e : REnemy) : RPlayer × REnemy :=
  match e.equippedWeapon with
  | some w =>
    match w.attackPoint with
    | some pt =>
      if p.hit pt then
        (playerHpSet p (playerHpGet p - w.strength),
         { e with equippedWeapon := some { w with attackPoint := none } })
      else (p, e)
    | none => (p, e)
  | none => (p, e)

/-- Second hit check of the pair: the player's weapon against the enemy
(`e.hp -= strength` through the `Enemy.hp` getter/setter, clear the player's
attack point). -/
def playerHitsEnemy (p : RPlayer) (e : REnemy) : RPlayer × REnemy :=
  match p.equippedWeapon with
  | some w =>
    match w.attackPoint with
    | some pt =>
      if e.hit pt then
        ({ p with equippedWeapon := some { w with attackPoint := none } },
         enemyHpSetR e (enemyHpGetR e - w.strength))
      else (p, e)
    | none => (p, e)
  | none => (p, e)

/-- Both hit checks for one `(player, enemy)` pair, in source order. -/
def pairStep (p : RPlayer) (e : REnemy) : RPlayer × REnemy :=
  playerHitsEnemy (enemyHitsPlayer p e).1 (enemyHitsPlayer p e).2

/-- The inner `for e in enemies` loop for one player. -/
def resolveInner (p : RPlayer) : List REnemy → RPlayer × List REnemy
  | [] => (p, [])
  | e :: es =>
    ((resolveInner (pairStep p e).1 es).1,
     (pairStep p e).2 :: (resolveInner (pairStep p e).1 es).2)

/-- The outer `for p in players` loop: one full combat-resolution pass. -/
def resolveOuter : List RPlayer → List REnemy → List RPlayer × List REnemy
  | [], es => ([], es)
  | p :: ps, es =>
    ((resolveInner p es).1 :: (resolveOuter ps (resolveInner p es).2).1,
     (resolveOuter ps (resolveInner p es).2).2)

/-- C8: both HP property setters clamp every assigned value into
`[0, max_hp]` (for a non-negative `max_hp`), for `Player` and for `Enemy`. -/
theorem C8_hp_clamped (p : RPlayer) (st : EnemyS) (v : ℚ)
    (hp : 0 ≤ p.maxHp) (he : 0 ≤ st.maxHp) :
    (0 ≤ (playerHpSet p v).hpRaw ∧ (playerHpSet p v).hpRaw ≤ p.maxHp) ∧
    (0 ≤ (enemyHpSet st v).hpRaw ∧ (enemyHpSet st v).hpRaw ≤ st.maxHp) := by
  refine ⟨⟨le_max_left _ _, ?_⟩, ⟨le_max_left _ _, ?_⟩⟩
  · exact max_le hp (min_le_right _ _)
  · exact max_le he (min_le_right _ _)

def c8p : RPlayer :=
  { hpRaw := 10, maxHp := 20, equippedWeapon := none, hit := fun _ => false }

noncomputable def c8st : EnemyS :=
  { center := (0, 0), maxHp := 5, hpRaw := 5, speed := 1, state := .roaming,
    curTarget := none, path := [], curPathPos := 0, calcPathTimer := 0,
    pauseTimer := 0, roamingDist := 0, equipped := none, changeX := 0,
    changeY := 0, killed := false }

theorem C8_hp_clamped_witness :
    (0 ≤ (playerHpSet c8p (-7)).hpRaw ∧ (playerHpSet c8p (-7)).hpRaw ≤ c8p.maxHp) ∧
    (0 ≤ (enemyHpSet c8st (-7)).hpRaw ∧ (enemyHpSet c8st (-7)).hpRaw ≤ c8st.maxHp) :=
  C8_hp_clamped c8p c8st (-7) (by norm_num [c8p]) (by norm_num [c8st])

/-! ## Idempotence of the resolver pass (C4) -/

/-- The defender misses: no live attack point of `ow` hits `hitF`. -/
def WpMisses (ow : Option RWeapon) (hitF : ℝ × ℝ → Bool) : Prop :=
  ∀ w pt, ow = some w → w.attackPoint = some pt → hitF pt = false

/-- During a pass an equipped weapon's attack point is only ever cleared:
any live point afterwards was already live before. -/
def WpEvol (ow₁ ow₂ : Option RWeapon) : Prop :=
  ∀ w pt, ow₂ = some w → w.attackPoint = some pt →
    ∃ w₀, ow₁ = some w₀ ∧ w₀.attackPoint = some pt

theorem WpEvol_refl (ow : Option RWeapon) : WpEvol ow ow :=
  fun w _ h1 h2 => ⟨w, h1, h2⟩

theorem WpEvol_trans {a b c : Option RWeapon} (h1 : WpEvol a b)
    (h2 : WpEvol b c) : WpEvol a c := by
  intro w pt hc hpt
  obtain ⟨w1, hb, hpt1⟩ := h2 w pt hc hpt
  exact h1 w1 pt hb hpt1

def PlEvol (p q : RPlayer) : Prop :=
  q.hit = p.hit ∧ WpEvol p.equippedWeapon q.equippedWeapon

def EnEvol (e f : REnemy) : Prop :=
  f.hit = e.hit ∧ WpEvol e.equippedWeapon f.equippedWeapon

theorem EnEvol_refl (e : REnemy) : EnEvol e e := ⟨rfl, WpEvol_refl _⟩

theorem EnEvol_trans {a b c : REnemy} (h1 : EnEvol a b) (h2 : EnEvol b c) :
    EnEvol a c :=
  ⟨h2.1.trans h1.1, WpEvol_trans h1.2 h2.2⟩

theorem forall2_en_refl (l : List REnemy) : List.Forall₂ EnEvol l l := by
  induction l with
  | nil => exact List.Forall₂.nil
  | cons e es ih => exact List.Forall₂.cons (EnEvol_refl e) ih

theorem forall2_en_trans {l1 l2 l3 : List REnemy}
    (h1 : List.Forall₂ EnEvol l1 l2) (h2 : List.Forall₂ EnEvol l2 l3) :
    List.Forall₂ EnEvol l1 l3 := by
  induction h1 generalizing l3 with
  | nil => cases h2; exact List.Forall₂.nil
  | cons hab htail ih =>
    cases h2 with
    | cons hbc htail2 => exact List.Forall₂.cons (EnEvol_trans hab hbc) (ih htail2)

theorem forall2_en_mem_right {l1 l2 : List REnemy}
    (h : List.Forall₂ EnEvol l1 l2) : ∀ f ∈ l2, ∃ e ∈ l1, EnEvol e f := by
  induction h with
  | nil => intro f hf; cases hf
  | cons hab htail ih =>
    intro f hf
    rcases List.mem_cons.mp hf with h1 | h1
    · subst h1
      exact ⟨_, List.mem_cons_self _ _, hab⟩
    · obtain ⟨e0, he0, hrel⟩ := ih f h1
      exact ⟨e0, List.mem_cons_of_mem _ he0, hrel⟩

theorem ehp_core (p : RPlayer) (e : REnemy) :
    (enemyHitsPlayer p e).1.hit = p.hit ∧
    (enemyHitsPlayer p e).1.equippedWeapon = p.equippedWeapon ∧
    (enemyHitsPlayer p e).2.hit = e.hit := by
  rcases he : e.equippedWeapon with _ | w
  · simp [enemyHitsPlayer, he]
  · rcases hpt : w.attackPoint with _ | pt
    · simp [enemyHitsPlayer, he, hpt]
    · by_cases h : p.hit pt
      · simp [enemyHitsPlayer, he, hpt, h, playerHpSet]
      · simp [enemyHitsPlayer, he, hpt, h]

theorem ehp_evol (p : RPlayer) (e : REnemy) :
    WpEvol e.equippedWeapon (enemyHitsPlayer p e).2.equippedWeapon := by
  rcases he : e.equippedWeapon with _ | w
  · simp [enemyHitsPlayer, he]
    exact WpEvol_refl _
  · rcases hpt : w.attackPoint with _ | pt
    · simp [enemyHitsPlayer, he, hpt]
      exact WpEvol_refl _
    · by_cases h : p.hit pt
      · simp [enemyHitsPlayer, he, hpt, h]
        intro w' pt' h1 h2
        rw [← Option.some_inj.mp h1] at h2
        cases h2
      · simp [enemyHitsPlayer, he, hpt, h]
        exact WpEvol_refl _

theorem ehp_surviving_missed (p : RPlayer) (e : REnemy) :
    ∀ w pt, (enemyHitsPlayer p e).2.equippedWeapon = some w →
      w.attackPoint = some pt → p.hit pt = false := by
  intro w pt h1 h2
  rcases he : e.equippedWeapon with _ | w0
  · rw [show (enemyHitsPlayer p e).2.equippedWeapon = e.equippedWeapon by
      simp [enemyHitsPlayer, he], he] at h1
    cases h1
  · rcases hpt : w0.attackPoint with _ | pt0
    · rw [show (enemyHitsPlayer p e).2.equippedWeapon = e.equippedWeapon by
        simp [enemyHitsPlayer, he, hpt], he] at h1
      rw [← Option.some_inj.mp h1, hpt] at h2
      cases h2
    · by_cases h : p.hit pt0
      · rw [show (enemyHitsPlayer p e).2.equippedWeapon
            = some { w0 with attackPoint := none } by
          simp [enemyHitsPlayer, he, hpt, h]] at h1
        rw [← Option.some_inj.mp h1] at h2
        cases h2
      · rw [show (enemyHitsPlayer p e).2.equippedWeapon = e.equippedWeapon by
          simp [enemyHitsPlayer, he, hpt, h], he] at h1
        rw [← Option.some_inj.mp h1, hpt] at h2
        rw [← Option.some_inj.mp h2]
        exact Bool.eq_false_iff.mpr h

theorem ehp_id (p : RPlayer) (e : REnemy)
    (h : WpMisses e.equippedWeapon p.hit) : enemyHitsPlayer p e = (p, e) := by
  rcases he : e.equippedWeapon with _ | w
  · simp [enemyHitsPlayer, he]
  · rcases hpt : w.attackPoint with _ | pt
    · simp [enemyHitsPlayer, he, hpt]
    · have hmiss := h w pt he hpt
      simp [enemyHitsPlayer, he, hpt, hmiss]

theorem phe_core (p : RPlayer) (e : REnemy) :
    (playerHitsEnemy p e).1.hit = p.hit ∧
    (playerHitsEnemy p e).2.equippedWeapon = e.equippedWeapon ∧
    (playerHitsEnemy p e).2.hit = e.hit := by
  rcases hp : p.equippedWeapon with _ | w
  · simp [playerHitsEnemy, hp]
  · rcases hpt : w.attackPoint with _ | pt
    · simp [playerHitsEnemy, hp, hpt]
    · by_cases h : e.hit pt
      · simp [playerHitsEnemy, hp, hpt, h, enemyHpSetR]
      · simp [playerHitsEnemy, hp, hpt, h]

theorem phe_evol (p : RPlayer) (e : REnemy) :
    WpEvol p.equippedWeapon (playerHitsEnemy p e).1.equippedWeapon := by
  rcases hp : p.equippedWeapon with _ | w
  · simp [playerHitsEnemy, hp]
    exact WpEvol_refl _
  · rcases hpt : w.attackPoint with _ | pt
    · simp [playerHitsEnemy, hp, hpt]
      exact WpEvol_refl _
    · by_cases h : e.hit pt
      · simp [playerHitsEnemy, hp, hpt, h]
        intro w' pt' h1 h2
        rw [← Option.some_inj.mp h1] at h2
        cases h2
      · simp [playerHitsEnemy, hp, hpt, h]
        exact WpEvol_refl _

theorem phe_surviving_missed (p : RPlayer) (e : REnemy) :
    ∀ w pt, (playerHitsEnemy p e).1.equippedWeapon = some w →
      w.attackPoint = some pt → e.hit pt = false := by
  intro w pt h1 h2
  rcases hp : p.equippedWeapon with _ | w0
  · rw [show (playerHitsEnemy p e).1.equippedWeapon = p.equippedWeapon by
      simp [playerHitsEnemy, hp], hp] at h1
    cases h1
  · rcases hpt : w0.attackPoint with _ | pt0
    · rw [show (playerHitsEnemy p e).1.equippedWeapon = p.equippedWeapon by
        simp [playerHitsEnemy, hp, hpt], hp] at h1
      rw [← Option.some_inj.mp h1, hpt] at h2
      cases h2
    · by_cases h : e.hit pt0
      · rw [show (playerHitsEnemy p e).1.equippedWeapon
            = some { w0 with attackPoint := none } by
          simp [playerHitsEnemy, hp, hpt, h]] at h1
        rw [← Option.some_inj.mp h1] at h2
        cases h2
      · rw [show (playerHitsEnemy p e).1.equippedWeapon = p.equippedWeapon by
          simp [playerHitsEnemy, hp, hpt, h], hp] at h1
        rw [← Option.some_inj.mp h1, hpt] at h2
        rw [← Option.some_inj.mp h2]
        exact Bool.eq_false_iff.mpr h

theorem phe_id (p : RPlayer) (e : REnemy)
    (h : WpMisses p.equippedWeapon e.hit) : playerHitsEnemy p e = (p, e) := by
  rcases hp : p.equippedWeapon with _ | w
  · simp [playerHitsEnemy, hp]
  · rcases hpt : w.attackPoint with _ | pt
    · simp [playerHitsEnemy, hp, hpt]
    · have hmiss := h w pt hp hpt
      simp [playerHitsEnemy, hp, hpt, hmiss]

/-- Collected facts about one pair check: both entities only evolve (hit
functions preserved, attack points only cleared), and any attack point that
survives the check misses the other entity of the pair. -/
theorem pairStep_facts (p : RPlayer) (e : REnemy) :
    PlEvol p (pairStep p e).1 ∧ EnEvol e (pairStep p e).2 ∧
    (∀ w pt, (pairStep p e).1.equippedWeapon = some w →
      w.attackPoint = some pt → (pairStep p e).2.hit pt = false) ∧
    (∀ w pt, (pairStep p e).2.equippedWeapon = some w →
      w.attackPoint = some pt → (pairStep p e).1.hit pt = false) := by
  have h1 := ehp_core p e
  have h2 := phe_core (enemyHitsPlayer p e).1 (enemyHitsPlayer p e).2
  refine ⟨⟨?_, ?_⟩, ⟨?_, ?_⟩, ?_, ?_⟩
  · show (pairStep p e).1.hit = p.hit
    rw [show (pairStep p e).1 = (playerHitsEnemy (enemyHitsPlayer p e).1
      (enemyHitsPlayer p e).2).1 from rfl, h2.1, h1.1]
  · show WpEvol p.equippedWeapon (pairStep p e).1.equippedWeapon
    rw [← h1.2.1]
    exact phe_evol (enemyHitsPlayer p e).1 (enemyHitsPlayer p e).2
  · show (pairStep p e).2.hit = e.hit
    rw [show (pairStep p e).2 = (playerHitsEnemy (enemyHitsPlayer p e).1
      (enemyHitsPlayer p e).2).2 from rfl, h2.2.2, h1.2.2]
  · show WpEvol e.equippedWeapon (pairStep p e).2.equippedWeapon
    rw [show (pairStep p e).2 = (playerHitsEnemy (enemyHitsPlayer p e).1
      (enemyHitsPlayer p e).2).2 from rfl, h2.2.1]
    exact ehp_evol p e
  · intro w pt hw hpt
    rw [show (pairStep p e).2 = (playerHitsEnemy (enemyHitsPlayer p e).1
      (enemyHitsPlayer p e).2).2 from rfl, h2.2.2]
    exact phe_surviving_missed (enemyHitsPlayer p e).1 (enemyHitsPlayer p e).2
      w pt hw hpt
  · intro w pt hw hpt
    rw [show (pairStep p e).2 = (playerHitsEnemy (enemyHitsPlayer p e).1
      (enemyHitsPlayer p e).2).2 from rfl, h2.2.1] at hw
    rw [show (pairStep p e).1 = (playerHitsEnemy (enemyHitsPlayer p e).1
      (enemyHitsPlayer p e).2).1 from rfl, h2.1, h1.1]
    exact ehp_surviving_missed p e w pt hw hpt

theorem pairStep_id (p : RPlayer) (e : REnemy)
    (h1 : WpMisses e.equippedWeapon p.hit)
    (h2 : WpMisses p.equippedWeapon e.hit) : pairStep p e = (p, e) := by
  unfold pairStep
  rw [ehp_id p e h1]
  exact phe_id p e h2

theorem PlEvol_refl (p : RPlayer) : PlEvol p p := ⟨rfl, WpEvol_refl _⟩

theorem PlEvol_trans {a b c : RPlayer} (h1 : PlEvol a b) (h2 : PlEvol b c) :
    PlEvol a c :=
  ⟨h2.1.trans h1.1, WpEvol_trans h1.2 h2.2⟩

/-- Facts about the inner loop: the player and each enemy only evolve, the
player's surviving attack point misses every produced enemy, and every
produced enemy's surviving attack point misses the player. -/
theorem resolveInner_facts (es : List REnemy) : ∀ p : RPlayer,
    PlEvol p (resolveInner p es).1 ∧
    List.Forall₂ EnEvol es (resolveInner p es).2 ∧
    (∀ w pt, (resolveInner p es).1.equippedWeapon = some w →
      w.attackPoint = some pt →
      ∀ f ∈ (resolveInner p es).2, f.hit pt = false) ∧
    (∀ f ∈ (resolveInner p es).2, ∀ w pt, f.equippedWeapon = some w →
      w.attackPoint = some pt → (resolveInner p es).1.hit pt = false) := by
  induction es with
  | nil =>
    intro p
    refine ⟨PlEvol_refl p, List.Forall₂.nil, ?_, ?_⟩
    · intro w pt _ _ f hf
      cases hf
    · intro f hf
      cases hf
  | cons e es ih =>
    intro p
    have F := pairStep_facts p e
    have IH := ih (pairStep p e).1
    have hfst : (resolveInner p (e :: es)).1
        = (resolveInner (pairStep p e).1 es).1 := rfl
    have hsnd : (resolveInner p (e :: es)).2
        = (pairStep p e).2 :: (resolveInner (pairStep p e).1 es).2 := rfl
    refine ⟨?_, ?_, ?_, ?_⟩
    · rw [hfst]
      exact PlEvol_trans F.1 IH.1
    · rw [hsnd]
      exact List.Forall₂.cons F.2.1 IH.2.1
    · intro w pt hw hpt f hf
      rw [hsnd] at hf
      rw [hfst] at hw
      rcases List.mem_cons.mp hf with h | h
      · subst h
        obtain ⟨w0, hw0, hpt0⟩ := IH.1.2 w pt hw hpt
        exact F.2.2.1 w0 pt hw0 hpt0
      · exact IH.2.2.1 w pt hw hpt f h
    · intro f hf w pt hw hpt
      rw [hsnd] at hf
      rw [hfst]
      rcases List.mem_cons.mp hf with h | h
      · subst h
        rw [IH.1.1]
        exact F.2.2.2 w pt hw hpt
      · exact IH.2.2.2 f h w pt hw hpt

/-- Facts about one full resolver pass: every enemy only evolves, and after
the pass every surviving attack point (of a produced player or a produced
enemy) misses every opposing produced entity. -/
theorem resolveOuter_facts (ps : List RPlayer) : ∀ es : List REnemy,
    List.Forall₂ EnEvol es (resolveOuter ps es).2 ∧
    (∀ q ∈ (resolveOuter ps es).1, ∀ w pt, q.equippedWeapon = some w →
      w.attackPoint = some pt →
      ∀ f ∈ (resolveOuter ps es).2, f.hit pt = false) ∧
    (∀ f ∈ (resolveOuter ps es).2, ∀ w pt, f.equippedWeapon = some w →
      w.attackPoint = some pt →
      ∀ q ∈ (resolveOuter ps es).1, q.hit pt = false) := by
  induction ps with
  | nil =>
    intro es
    refine ⟨forall2_en_refl es, ?_, ?_⟩
    · intro q hq
      cases hq
    · intro f _ w pt _ _ q hq
      cases hq
  | cons p ps ih =>
    intro es
    have I := resolveInner_facts es p
    have OH := ih (resolveInner p es).2
    have hfst : (resolveOuter (p :: ps) es).1
        = (resolveInner p es).1
            :: (resolveOuter ps (resolveInner p es).2).1 := rfl
    have hsnd : (resolveOuter (p :: ps) es).2
        = (resolveOuter ps (resolveInner p es).2).2 := rfl
    refine ⟨?_, ?_, ?_⟩
    · rw [hsnd]
      exact forall2_en_trans I.2.1 OH.1
    · intro q hq w pt hw hpt f hf
      rw [hsnd] at hf
      rw [hfst] at hq
      rcases List.mem_cons.mp hq with h | h
      · subst h
        obtain ⟨e1, he1, hrel⟩ := forall2_en_mem_right OH.1 f hf
        rw [hrel.1]
        exact I.2.2.1 w pt hw hpt e1 he1
      · exact OH.2.1 q h w pt hw hpt f hf
    · intro f hf w pt hw hpt q hq
      rw [hsnd] at hf
      rw [hfst] at hq
      rcases List.mem_cons.mp hq with h | h
      · subst h
        obtain ⟨e1, he1, hrel⟩ := forall2_en_mem_right OH.1 f hf
        obtain ⟨w0, hw0, hpt0⟩ := hrel.2 w pt hw hpt
        exact I.2.2.2 e1 he1 w0 pt hw0 hpt0
      · exact OH.2.2 f hf w pt hw hpt q h

theorem resolveInner_id (es : List REnemy) : ∀ p : RPlayer,
    (∀ e ∈ es, WpMisses p.equippedWeapon e.hit) →
    (∀ e ∈ es, WpMisses e.equippedWeapon p.hit) →
    resolveInner p es = (p, es) := by
  induction es with
  | nil =>
    intro p _ _
    rfl
  | cons e es ih =>
    intro p h1 h2
    have hpair : pairStep p e = (p, e) :=
      pairStep_id p e (h2 e (List.mem_cons_self _ _))
        (h1 e (List.mem_cons_self _ _))
    have hrest : resolveInner p es = (p, es) :=
      ih p (fun e' he' => h1 e' (List.mem_cons_of_mem _ he'))
        (fun e' he' => h2 e' (List.mem_cons_of_mem _ he'))
    show ((resolveInner (pairStep p e).1 es).1,
      (pairStep p e).2 :: (resolveInner (pairStep p e).1 es).2) = (p, e :: es)
    rw [hpair]
    show ((resolveInner p es).1, e :: (resolveInner p es).2) = (p, e :: es)
    rw [hrest]

theorem resolveOuter_id (ps : List RPlayer) : ∀ es : List REnemy,
    (∀ q ∈ ps, ∀ e ∈ es, WpMisses q.equippedWeapon e.hit) →
    (∀ e ∈ es, ∀ q ∈ ps, WpMisses e.equippedWeapon q.hit) →
    resolveOuter ps es = (ps, es) := by
  induction ps with
  | nil =>
    intro es _ _
    rfl
  | cons p ps ih =>
    intro es h1 h2
    have hinner : resolveInner p es = (p, es) :=
      resolveInner_id es p (h1 p (List.mem_cons_self _ _))
        (fun e he => h2 e he p (List.mem_cons_self _ _))
    have hrest : resolveOuter ps es = (ps, es) :=
      ih es (fun q hq e he => h1 q (List.mem_cons_of_mem _ hq) e he)
        (fun e he q hq => h2 e he q (List.mem_cons_of_mem _ hq))
    show ((resolveInner p es).1 :: (resolveOuter ps (resolveInner p es).2).1,
      (resolveOuter ps (resolveInner p es).2).2) = (p :: ps, es)
    rw [hinner]
    show ((resolveOuter ps es).1.cons p, (resolveOuter ps es).2) = (p :: ps, es)
    rw [hrest]

/-- C4: one resolver pass clears every attack point that can still hit
something, so running the pass again is the identity — in particular no
defender takes any additional damage from the same swing. -/
theorem C4_resolver_idempotent (ps : List RPlayer) (es : List REnemy) :
    resolveOuter (resolveOuter ps es).1 (resolveOuter ps es).2
      = resolveOuter ps es := by
  have F := resolveOuter_facts ps es
  rw [resolveOuter_id (resolveOuter ps es).1 (resolveOuter ps es).2
    (fun q hq e he w pt hw hpt => F.2.1 q hq w pt hw hpt e he)
    (fun e he q hq w pt hw hpt => F.2.2 e he w pt hw hpt q hq)]

/-! ## Fog of war (`my_game.py`, `GameView.on_draw` lines 275-294, C9)

For an unseen tile on a line-of-sight layer, `on_draw` runs
`arcade.has_line_of_sight` inside `try`/`except ZeroDivisionError`.  The
query either returns a boolean or raises (`Except.error`, the near-zero
distance case); the handler body is `pass`.  `tileSeenAfter` is the value of
`s.seen` after the tile is processed; the function is total, so no exception
escapes the handler. -/

def tileSeenAfter (seen : Bool) (losResult : Except Unit Bool) : Bool :=
  if seen then seen
  else
    match losResult with
    | .ok true => true
    | .ok false => seen
    | .error _ => seen

/-- Whether the tile is drawn this frame: only tiles already seen are
drawn. -/
def tileDrawn (seen : Bool) : Bool := seen

/-- C9 (counterexample): when the line-of-sight query raises the
division-by-zero error on an unseen tile, the tile is NOT marked seen — the
handler only swallows the exception — contradicting the claim that the tile
is treated as visible. -/
theorem C9_error_leaves_unseen_counterexample :
    tileSeenAfter false (Except.error ()) = false ∧
    ¬ tileSeenAfter false (Except.error ()) = true ∧
    tileDrawn false = false := by
  refine ⟨rfl, ?_, rfl⟩
  intro h
  cases h

/-- C9 (amended): the `ZeroDivisionError` from a degenerate line-of-sight
query is swallowed — no error propagates out of the per-tile check — and the
tile's `seen` flag is left unchanged (it is not marked seen and the tile is
not drawn this frame; it may be marked in a later frame). -/
theorem C9_error_swallowed (seen : Bool) :
    tileSeenAfter seen (Except.error ()) = seen := by
  cases seen <;> rfl

/-! ## The C5 chase scenario -/

theorem atan2_pos_y (y : ℝ) (hy : 0 < y) : atan2 y 0 = π / 2 := by
  unfold atan2
  rw [if_neg (lt_irrefl 0), if_neg (lt_irrefl 0), if_pos hy]

/-- One `Enemy.update()` tick for an enemy at the origin with speed 5, a
single visible target at `(100, 0)`, pause elapsed and path-timer due, armed
with an idle weapon with at least two uses: the enemy enters CHASING and
moves to `(5, 0)`; the attack places the weapon at `(5 + range, 0)` but the
weapon is then shifted along with the enemy's movement, so after the tick its
position is `(10 + range, 0)`. -/
theorem c5_eval (A : (ℝ × ℝ) → (ℤ × ℤ) → List (ℝ × ℝ)) (rr : ℚ)
    (samples : List (ℤ × ℤ)) (mh hpv pa ca rd : ℚ) (ct0 : Option (ℝ × ℝ))
    (pth : List (ℝ × ℝ)) (cpp : ℕ) (st0 : EState) (cx cy : ℝ) (kd : Bool)
    (w : Weapon)
    (hpa : pa ≤ 0) (hca : ca ≤ 1 / 60) (hmh : 0 < mh)
    (hidle : w.timeToIdle ≤ 0) (huses : w.attacksLeft.le0 = false)
    (husesd : w.attacksLeft.dec.le0 = false) :
    (enemyUpdate
      { targets := [(100, 0)], los := fun _ _ => true, astar := A,
        randReset := rr, roamSamples := samples }
      { center := (0, 0), maxHp := mh, hpRaw := hpv, speed := 5,
        state := st0, curTarget := ct0, path := pth, curPathPos := cpp,
        calcPathTimer := ca, pauseTimer := pa, roamingDist := rd,
        equipped := some w, changeX := cx, changeY := cy,
        killed := kd }).map
      (fun s => (s.state, s.center, s.equipped.map Weapon.center))
      = some (EState.chasing, ((5 : ℝ), 0),
          some ((10 + ((w.rng : ℚ) : ℝ), (0 : ℝ)))) := by
  have hnp : ¬ (0 : ℚ) < pa := not_lt.mpr hpa
  have hca' : ca - 1 / 60 ≤ 0 := by linarith
  have hatan : atan2 ((100 : ℝ) - 0) ((0 : ℝ) - 0) = π / 2 := by
    rw [show ((100 : ℝ) - 0) = 100 by ring, show ((0 : ℝ) - 0) = 0 by ring]
    exact atan2_pos_y 100 (by norm_num)
  unfold enemyUpdate
  rw [if_neg hnp]
  simp only [stateControl, stateStep, List.foldl, if_pos hca', if_true]
  simp only [chasingStep, hatan, Real.sin_pi_div_two, Real.cos_pi_div_two]
  have hW := wAttack_success w
    ((0 : ℝ) + 1 * ((5 : ℚ) : ℝ), (0 : ℝ) + 0 * ((5 : ℚ) : ℝ)) (π / 2)
    hidle huses
  simp only [Real.sin_pi_div_two, Real.cos_pi_div_two] at hW
  simp only [hW.2.2.2.2.2, Option.map_some, hW.2.1]
  norm_num
  have hmlnot : ¬ mh ≤ 0 := not_le.mpr hmh
  simp [deathAndWeapon, enemyHpGet, hmlnot, wUpdate_attacksLeft, husesd,
    wUpdate_center]
  ring

/-- A fresh short sword (range 15) for the C5 scenario. -/
noncomputable def c5wx : Weapon :=
  { rate := 4 / 5, strength := 7, rng := 15, hitBoxData := [],
    attacksLeft := .fin 10, timeToIdle := 0, hitBox := [], killed := false,
    center := (0, 0), angle := 0 }

/-- C5 (counterexample): in the scenario of the claim with weapon range 15
the weapon's position after the tick is `(25, 0)`, not the claimed
`(5 + 15, 0) = (20, 0)`: after the attack places the weapon, lines 371-372 of
`my_sprites.py` shift it again by the enemy's movement step. -/
theorem C5_attack_point_counterexample :
    (enemyUpdate
      { targets := [(100, 0)], los := fun _ _ => true,
        astar := fun _ _ => [], randReset := 0, roamSamples := [] }
      { center := (0, 0), maxHp := 10, hpRaw := 10, speed := 5,
        state := .roaming, curTarget := none, path := [], curPathPos := 0,
        calcPathTimer := 0, pauseTimer := 0, roamingDist := 0,
        equipped := some c5wx, changeX := 0, changeY := 0,
        killed := false }).map
      (fun s => (s.state, s.center, s.equipped.map Weapon.center))
      = some (EState.chasing, ((5 : ℝ), 0), some ((25 : ℝ), 0)) ∧
    ((25 : ℝ), (0 : ℝ)) ≠ ((5 : ℝ) + 15, 0) := by
  constructor
  · have h := c5_eval (fun _ _ => []) 0 [] 10 10 0 0 0 none [] 0 .roaming 0 0
      false c5wx (by norm_num) (by norm_num) (by norm_num)
      (by norm_num [c5wx]) (by simp [c5wx, UsesLeft.le0])
      (by simp [c5wx, UsesLeft.dec, UsesLeft.le0])
    rw [h]
    norm_num [c5wx]
  · intro h
    have := congrArg Prod.fst h
    norm_num at this

/-- C5 (amended): first CHASING tick of the scenario — state CHASING,
position `(5, 0)`, the attack sets the weapon at `(5 + r, 0)` but the code
then shifts the weapon with the enemy's movement, so the weapon position
after the tick is `(10 + r, 0)`. -/
theorem C5_weapon_shifted_after_attack (A : (ℝ × ℝ) → (ℤ × ℤ) → List (ℝ × ℝ))
    (rr : ℚ) (samples : List (ℤ × ℤ)) (mh hpv pa ca rd : ℚ)
    (ct0 : Option (ℝ × ℝ)) (pth : List (ℝ × ℝ)) (cpp : ℕ) (st0 : EState)
    (cx cy : ℝ) (kd : Bool) (w : Weapon)
    (hpa : pa ≤ 0) (hca : ca ≤ 1 / 60) (hmh : 0 < mh)
    (hidle : w.timeToIdle ≤ 0) (huses : w.attacksLeft.le0 = false)
    (husesd : w.attacksLeft.dec.le0 = false) :
    (enemyUpdate
      { targets := [(100, 0)], los := fun _ _ => true, astar := A,
        randReset := rr, roamSamples := samples }
      { center := (0, 0), maxHp := mh, hpRaw := hpv, speed := 5,
        state := st0, curTarget := ct0, path := pth, curPathPos := cpp,
        calcPathTimer := ca, pauseTimer := pa, roamingDist := rd,
        equipped := some w, changeX := cx, changeY := cy,
        killed := kd }).map
      (fun s => (s.state, s.center, s.equipped.map Weapon.center))
      = some (EState.chasing, ((5 : ℝ), 0),
          some ((10 + ((w.rng : ℚ) : ℝ), (0 : ℝ)))) :=
  c5_eval A rr samples mh hpv pa ca rd ct0 pth cpp st0 cx cy kd w
    hpa hca hmh hidle huses husesd

theorem C5_weapon_shifted_after_attack_witness :
    (enemyUpdate
      { targets := [(100, 0)], los := fun _ _ => true,
        astar := fun _ _ => [], randReset := 0, roamSamples := [] }
      { center := (0, 0), maxHp := 10, hpRaw := 10, speed := 5,
        state := .roaming, curTarget := none, path := [], curPathPos := 0,
        calcPathTimer := 0, pauseTimer := 0, roamingDist := 0,
        equipped := some c5wx, changeX := 0, changeY := 0,
        killed := false }).map
      (fun s => (s.state, s.center, s.equipped.map Weapon.center))
      = some (EState.chasing, ((5 : ℝ), 0),
          some ((10 + ((c5wx.rng : ℚ) : ℝ), (0 : ℝ)))) :=
  C5_weapon_shifted_after_attack (fun _ _ => []) 0 [] 10 10 0 0 0 none [] 0
    .roaming 0 0 false c5wx (by norm_num) (by norm_num) (by norm_num)
    (by norm_num [c5wx]) (by simp [c5wx, UsesLeft.le0])
    (by simp [c5wx, UsesLeft.dec, UsesLeft.le0])

/-! ## Mover termination (C7) -/

/-- Sum of the segment lengths between consecutive waypoints. -/
noncomputable def chainLen : List (ℝ × ℝ) → ℝ
  | [] => 0
  | [_] => 0
  | a :: b :: rest => dist2 a.1 a.2 b.1 b.2 + chainLen (b :: rest)

/-- Remaining work from position `pos`: distance to the first listed waypoint
plus the lengths of the remaining segments. -/
noncomputable def remLen (pos : ℝ × ℝ) : List (ℝ × ℝ) → ℝ
  | [] => 0
  | q :: rest => dist2 q.1 q.2 pos.1 pos.2 + chainLen (q :: rest)

/-- Remaining work of a mover state (from the cursor on). -/
noncomputable def wRem (st : EnemyS) : ℝ :=
  remLen st.center (st.path.drop st.curPathPos)

/-- Termination potential: waypoints still to consume plus remaining work in
speed units. -/
noncomputable def moverPhi (st : EnemyS) : ℤ :=
  ((st.path.length : ℤ) - st.curPathPos) + ⌈wRem st / ((st.speed : ℚ) : ℝ)⌉

theorem chainLen_nonneg (l : List (ℝ × ℝ)) : 0 ≤ chainLen l := by
  induction l with
  | nil => exact le_refl 0
  | cons a rest ih =>
    cases rest with
    | nil => exact le_refl 0
    | cons b rest2 =>
      have h := dist2_nonneg a.1 a.2 b.1 b.2
      unfold chainLen
      have h2 : (0 : ℝ) ≤ chainLen (b :: rest2) := ih
      linarith

theorem remLen_nonneg (pos : ℝ × ℝ) (l : List (ℝ × ℝ)) : 0 ≤ remLen pos l := by
  cases l with
  | nil => exact le_refl 0
  | cons q rest =>
    have h1 := dist2_nonneg q.1 q.2 pos.1 pos.2
    have h2 := chainLen_nonneg (q :: rest)
    simp only [remLen]
    linarith

/-- Stepping straight toward the destination by `s < d` shortens the distance
to it by exactly `s`; the step is the one `move_along_path` performs with the
reversed `get_angle_radians` angle. -/
theorem move_toward_dist (px py dx dy s : ℝ) (hs : 0 < s)
    (hd : s < dist2 dx dy px py) :
    dist2 dx dy (px + -Real.sin (atan2 (px - dx) (py - dy)) * s)
      (py + -Real.cos (atan2 (px - dx) (py - dy)) * s)
      = dist2 dx dy px py - s := by
  have hdpos : 0 < dist2 dx dy px py := lt_trans hs hd
  have hABne : ¬((py - dy) = 0 ∧ (px - dx) = 0) := by
    rintro ⟨hB, hA⟩
    have h0 : dist2 dx dy px py = 0 := by
      unfold dist2
      rw [show (dx - px) ^ 2 + (dy - py) ^ 2 = 0 by nlinarith]
      exact Real.sqrt_zero
    rw [h0] at hdpos
    exact lt_irrefl 0 hdpos
  have hsin := sin_atan2 (px - dx) (py - dy) hABne
  have hcos := cos_atan2 (px - dx) (py - dy) hABne
  have hroot : Real.sqrt ((py - dy) ^ 2 + (px - dx) ^ 2) = dist2 dx dy px py := by
    unfold dist2
    ring_nf
  rw [hroot] at hsin hcos
  set d := dist2 dx dy px py with hdDef
  have hdne : d ≠ 0 := ne_of_gt hdpos
  rw [hsin, hcos]
  have hx : dx - (px + -((px - dx) / d) * s) = -((px - dx) * (1 - s / d)) := by
    field_simp
    ring
  have hy : dy - (py + -((py - dy) / d) * s) = -((py - dy) * (1 - s / d)) := by
    field_simp
    ring
  unfold dist2
  rw [hx, hy]
  rw [show (-((px - dx) * (1 - s / d))) ^ 2 + (-((py - dy) * (1 - s / d))) ^ 2
      = (1 - s / d) ^ 2 * ((dx - px) ^ 2 + (dy - py) ^ 2) by ring]
  rw [Real.sqrt_mul (sq_nonneg _), Real.sqrt_sq_eq_abs]
  have hfrac : s / d < 1 := (div_lt_one hdpos).mpr hd
  rw [abs_of_pos (by linarith : (0 : ℝ) < 1 - s / d)]
  have hback : Real.sqrt ((dx - px) ^ 2 + (dy - py) ^ 2) = d := by
    rw [hdDef]
    unfold dist2
    rfl
  rw [hback]
  field_simp

theorem moveAlongPath_speed (st : EnemyS) :
    (moveAlongPath st).speed = st.speed := by
  unfold moveAlongPath
  rcases st.path with _ | ⟨a, rest⟩
  · rfl
  · dsimp only
    split <;> try rfl
    split <;> rfl

theorem moveAlongPath_empty (st : EnemyS) (h : st.path = []) :
    moveAlongPath st = st := by
  unfold moveAlongPath
  rw [h]

theorem moveAlongPath_iterate_empty (k : ℕ) : ∀ st : EnemyS, st.path = [] →
    (moveAlongPath^[k] st).path = [] := by
  induction k with
  | zero => intro st h; exact h
  | succ m ih =>
    intro st h
    rw [Function.iterate_succ_apply, moveAlongPath_empty st h]
    exact ih st h

theorem moveAlongPath_cur_le (st : EnemyS) :
    st.curPathPos ≤ (moveAlongPath st).curPathPos := by
  unfold moveAlongPath
  rcases st.path with _ | ⟨a, rest⟩
  · exact le_refl _
  · dsimp only
    split
    · split
      · exact Nat.le_succ _
      · exact Nat.le_succ _
    · exact le_refl _

/-- One `move_along_path` tick on a live path either finishes the path or
keeps the path, keeps the speed, keeps the cursor in range, and strictly
decreases the termination potential. -/
theorem mover_step (st : EnemyS) (hs : 0 < st.speed)
    (hne : st.path ≠ []) (hinv : st.curPathPos < st.path.length) :
    (moveAlongPath st).path = [] ∨
    ((moveAlongPath st).path = st.path ∧
     (moveAlongPath st).speed = st.speed ∧
     (moveAlongPath st).curPathPos < (moveAlongPath st).path.length ∧
     moverPhi (moveAlongPath st) ≤ moverPhi st - 1) := by
  rcases hpath : st.path with _ | ⟨a, rest⟩
  · exact absurd hpath hne
  have hcur : st.curPathPos < (a :: rest).length := hpath ▸ hinv
  have hgetD : (a :: rest).getD st.curPathPos (0, 0)
      = (a :: rest)[st.curPathPos] := List.getD_eq_getElem _ _ hcur
  have hdropc : (a :: rest).drop st.curPathPos
      = (a :: rest)[st.curPathPos] :: (a :: rest).drop (st.curPathPos + 1) :=
    List.drop_eq_getElem_cons hcur
  set q := (a :: rest)[st.curPathPos] with hq
  set sR := ((st.speed : ℚ) : ℝ) with hsRdef
  have hsRpos : (0 : ℝ) < sR := by
    rw [hsRdef]
    exact_mod_cast hs
  set dd := dist2 q.1 q.2 st.center.1 st.center.2 with hdd
  by_cases hle : dd ≤ sR
  · by_cases hlast : st.curPathPos + 1 = (a :: rest).length
    · left
      have hmv : moveAlongPath st
          = { st with curPathPos := st.curPathPos + 1, path := [] } := by
        simp only [moveAlongPath, hpath, hgetD]
        rw [if_pos hle, if_pos hlast]
      rw [hmv]
    · right
      have hmv : moveAlongPath st
          = { st with curPathPos := st.curPathPos + 1 } := by
        simp only [moveAlongPath, hpath, hgetD]
        rw [if_pos hle, if_neg hlast]
      have hcur2 : st.curPathPos + 1 < (a :: rest).length :=
        lt_of_le_of_ne (Nat.succ_le_of_lt hcur) hlast
      have hdropc2 : (a :: rest).drop (st.curPathPos + 1)
          = (a :: rest)[st.curPathPos + 1]
              :: (a :: rest).drop (st.curPathPos + 2) :=
        List.drop_eq_getElem_cons hcur2
      set q2 := (a :: rest)[st.curPathPos + 1] with hq2
      refine ⟨by rw [hmv, hpath], by rw [hmv], ?_, ?_⟩
      · rw [hmv]
        show st.curPathPos + 1 < st.path.length
        rw [hpath]
        exact hcur2
      · rw [hmv]
        unfold moverPhi wRem
        dsimp only
        rw [← hsRdef]
        have hW : remLen st.center ((a :: rest).drop st.curPathPos)
            = dist2 q.1 q.2 st.center.1 st.center.2
              + (dist2 q.1 q.2 q2.1 q2.2
                 + chainLen (q2 :: (a :: rest).drop (st.curPathPos + 2))) := by
          rw [hdropc, hdropc2]
          simp only [remLen, chainLen]
        have hW2 : remLen st.center ((a :: rest).drop (st.curPathPos + 1))
            = dist2 q2.1 q2.2 st.center.1 st.center.2
              + chainLen (q2 :: (a :: rest).drop (st.curPathPos + 2)) := by
          rw [hdropc2]
          simp only [remLen]
        have htri : dist2 q2.1 q2.2 st.center.1 st.center.2
            ≤ dist2 q2.1 q2.2 q.1 q.2 + dist2 q.1 q.2 st.center.1 st.center.2 :=
          dist2_triangle q2.1 q2.2 q.1 q.2 st.center.1 st.center.2
        have hWle : remLen st.center ((a :: rest).drop (st.curPathPos + 1))
            ≤ remLen st.center ((a :: rest).drop st.curPathPos) := by
          rw [hW, hW2, dist2_symm q2.1 q2.2 q.1 q.2] at *
          linarith
        have hceil : ⌈remLen st.center ((a :: rest).drop (st.curPathPos + 1)) / sR⌉
            ≤ ⌈remLen st.center ((a :: rest).drop st.curPathPos) / sR⌉ :=
          Int.ceil_le_ceil ((div_le_div_iff_of_pos_right hsRpos).mpr hWle)
        simp only [hpath]
        push_cast
        omega
  · right
    have hgt : sR < dd := not_le.mp hle
    have hmin : min sR dd = sR := min_eq_left (le_of_lt hgt)
    have hmv : moveAlongPath st
        = { st with
            center := (st.center.1
                + -Real.sin (atan2 (st.center.1 - q.1) (st.center.2 - q.2))
                  * min sR dd,
              st.center.2
                + -Real.cos (atan2 (st.center.1 - q.1) (st.center.2 - q.2))
                  * min sR dd) } := by
      simp only [moveAlongPath, hpath, hgetD]
      rw [if_neg hle]
    have hmove : dist2 q.1 q.2
        (st.center.1
          + -Real.sin (atan2 (st.center.1 - q.1) (st.center.2 - q.2)) * min sR dd)
        (st.center.2
          + -Real.cos (atan2 (st.center.1 - q.1) (st.center.2 - q.2)) * min sR dd)
        = dd - sR := by
      rw [hmin]
      exact move_toward_dist st.center.1 st.center.2 q.1 q.2 sR hsRpos hgt
    refine ⟨by rw [hmv, hpath], by rw [hmv], ?_, ?_⟩
    · rw [hmv]
      show st.curPathPos < st.path.length
      exact hinv
    · rw [hmv]
      unfold moverPhi wRem
      dsimp only
      rw [← hsRdef]
      simp only [hpath]
      rw [hdropc]
      simp only [remLen]
      rw [hmove, ← hdd]
      set C := chainLen (q :: (a :: rest).drop (st.curPathPos + 1)) with hC
      have hdiv : (dd - sR + C) / sR = (dd + C) / sR - 1 := by
        field_simp
        ring
      rw [hdiv]
      rw [show ((dd + C) / sR - 1 : ℝ) = (dd + C) / sR - ((1 : ℤ) : ℝ) by
        push_cast
        ring]
      rw [Int.ceil_sub_int]
      omega

theorem mover_phi_pos (st : EnemyS) (hs : 0 < st.speed) (_hne : st.path ≠ [])
    (hinv : st.curPathPos < st.path.length) : 1 ≤ moverPhi st := by
  unfold moverPhi
  have h1 : (1 : ℤ) ≤ (st.path.length : ℤ) - st.curPathPos := by
    have h := hinv
    omega
  have h2 : (0 : ℤ) ≤ ⌈wRem st / ((st.speed : ℚ) : ℝ)⌉ := by
    apply Int.ceil_nonneg
    apply div_nonneg (remLen_nonneg _ _)
    have : (0 : ℝ) < ((st.speed : ℚ) : ℝ) := by exact_mod_cast hs
    linarith
  linarith

theorem mover_aux (k : ℕ) : ∀ st : EnemyS, 0 < st.speed →
    (st.path ≠ [] → st.curPathPos < st.path.length) →
    moverPhi st ≤ (k : ℤ) → (moveAlongPath^[k] st).path = [] := by
  induction k with
  | zero =>
    intro st hs hinv hphi
    by_cases hne : st.path = []
    · exact hne
    · have := mover_phi_pos st hs hne (hinv hne)
      omega
  | succ m ih =>
    intro st hs hinv hphi
    by_cases hne : st.path = []
    · exact moveAlongPath_iterate_empty _ st hne
    · rcases mover_step st hs hne (hinv hne) with hdone | ⟨hpath, hspeed, hinv2, hdec⟩
      · rw [Function.iterate_succ_apply]
        exact moveAlongPath_iterate_empty m _ hdone
      · rw [Function.iterate_succ_apply]
        apply ih (moveAlongPath st) (hspeed ▸ hs) (fun _ => hinv2)
        have hcast : ((m + 1 : ℕ) : ℤ) = (m : ℤ) + 1 := by push_cast; ring
        omega

/-- C7 (amended): a mover with speed `s > 0` starting at cursor `0` empties a
path of `K` waypoints and total length `L` within `K + ceil(L / s)` ticks
(the source's cursor-advance ticks do not move the sprite, so each of the `K`
waypoints costs one extra tick beyond the `ceil(L / s)` movement ticks), and
the waypoint cursor never decreases. -/
theorem C7_mover_termination (st : EnemyS) (n : ℕ)
    (hc : st.curPathPos = 0) (hs : 0 < st.speed)
    (hn : (st.path.length : ℤ)
        + ⌈remLen st.center st.path / ((st.speed : ℚ) : ℝ)⌉ ≤ (n : ℤ)) :
    (moveAlongPath^[n] st).path = [] ∧
    ∀ m : ℕ, (moveAlongPath^[m] st).curPathPos
      ≤ (moveAlongPath^[m + 1] st).curPathPos := by
  constructor
  · apply mover_aux n st hs
    · intro hne
      rw [hc]
      exact List.length_pos.mpr hne
    · unfold moverPhi wRem
      rw [hc, List.drop_zero]
      push_cast
      omega
  · intro m
    rw [Function.iterate_succ_apply']
    exact moveAlongPath_cur_le _

/-- The C7 path: two waypoints on the x axis, one unit apart, one unit from
the mover, speed 1. -/
noncomputable def c7st : EnemyS :=
  { center := (0, 0), maxHp := 10, hpRaw := 10, speed := 1, state := .roaming,
    curTarget := none, path := [(1, 0), (2, 0)], curPathPos := 0,
    calcPathTimer := 0, pauseTimer := 0, roamingDist := 0, equipped := none,
    changeX := 0, changeY := 0, killed := false }

theorem c7_dist1 : dist2 1 0 0 0 = (1 : ℝ) := by
  rw [dist2_eq_abs]
  norm_num

theorem c7_dist2 : dist2 2 0 0 0 = (2 : ℝ) := by
  rw [dist2_eq_abs]
  norm_num

theorem c7_dist12 : dist2 1 0 2 0 = (1 : ℝ) := by
  rw [dist2_eq_abs]
  norm_num

theorem c7_remLen : remLen c7st.center c7st.path = 2 := by
  show remLen (0, 0) [(1, 0), (2, 0)] = 2
  simp only [remLen, chainLen]
  rw [show dist2 (1, (0 : ℝ)).1 (1, (0 : ℝ)).2 (0, (0 : ℝ)).1 (0, (0 : ℝ)).2
      = dist2 1 0 0 0 from rfl, c7_dist1]
  rw [show dist2 (1, (0 : ℝ)).1 (1, (0 : ℝ)).2 (2, (0 : ℝ)).1 (2, (0 : ℝ)).2
      = dist2 1 0 2 0 from rfl, c7_dist12]
  norm_num

theorem c7_step1 : moveAlongPath c7st = { c7st with curPathPos := 1 } := by
  have h1 : dist2 ((c7st.path.getD c7st.curPathPos (0, 0)).1)
      ((c7st.path.getD c7st.curPathPos (0, 0)).2) c7st.center.1 c7st.center.2
      = 1 := by
    show dist2 1 0 0 0 = 1
    exact c7_dist1
  simp only [moveAlongPath, c7st] at h1 ⊢
  rw [h1]
  norm_num

theorem c7_step2_path :
    (moveAlongPath { c7st with curPathPos := 1 }).path = [(1, 0), (2, 0)] := by
  have h2 : dist2
      (({ c7st with curPathPos := 1 } : EnemyS).path.getD 1 (0, 0)).1
      (({ c7st with curPathPos := 1 } : EnemyS).path.getD 1 (0, 0)).2
      (({ c7st with curPathPos := 1 } : EnemyS).center.1)
      (({ c7st with curPathPos := 1 } : EnemyS).center.2) = 2 := by
    show dist2 2 0 0 0 = 2
    exact c7_dist2
  simp only [moveAlongPath, c7st] at h2 ⊢
  rw [h2]
  norm_num

/-- C7 (counterexample): for the two-waypoint unit path of total length 2 and
speed 1 the claimed bound is `ceil(L / s) = 2` ticks, but after 2 ticks the
path is still non-empty (the first tick only advances the cursor and does not
move). -/
theorem C7_ceil_bound_counterexample :
    ⌈remLen c7st.center c7st.path / ((c7st.speed : ℚ) : ℝ)⌉ = 2 ∧
    (moveAlongPath^[2] c7st).path ≠ [] := by
  constructor
  · rw [c7_remLen]
    norm_num [c7st]
  · rw [show (2 : ℕ) = 1 + 1 from rfl, Function.iterate_succ_apply,
      Function.iterate_succ_apply, Function.iterate_zero_apply, c7_step1,
      c7_step2_path]
    simp

theorem C7_mover_termination_witness :
    (moveAlongPath^[4] c7st).path = [] :=
  (C7_mover_termination c7st 4 rfl (by norm_num [c7st])
    (by
      rw [c7_remLen]
      norm_num [c7st])).1

end Dungeon
